import Mathlib

/-!
Shallow embedding of the point-cloud record codec, conversion pipeline and
downsample filter of the gaussian-splat-test repository
(src/converter.py, src/downsample_dat.py, src/prepare_demo.py).

Machine integers are modelled as Nat/Int; the exact rational arithmetic of
the codec is modelled over Rat.  Byte strings are lists of Nat (each entry
one byte).  The square root used by quaternion normalization is modelled by
passing the length L of the quaternion explicitly, constrained in each
theorem by L ^ 2 = w ^ 2 + x ^ 2 + y ^ 2 + z ^ 2 and 0 <= L, which is the
defining property of the Euclidean norm.
-/

/-- Record size in bytes: struct.calcsize of the format
!HHfffBBBBfffBBBB used by converter.py, downsample_dat.py and
prepare_demo.py (2 + 2 + 12 + 3 + 1 + 12 + 4). -/
def RECORD_SIZE : ℕ := 36

/-- Default chunk budget of downsample_dat.iter_records (4 MiB). -/
def CHUNK_BYTES_DEFAULT : ℕ := 4 * 1024 * 1024

/-- Python int() applied to an exact rational value: truncation toward
zero, as performed by the expression int(val * 128 + 128) in
converter.normalize_quaternion_to_bytes. -/
def pyTrunc (v : ℚ) : ℤ := if 0 ≤ v then ⌊v⌋ else ⌈v⌉

/-- converter.to_byte (inner function of normalize_quaternion_to_bytes):
b = int(val * 128 + 128); return max(0, min(255, b)). -/
def to_byte (val : ℚ) : ℕ := (max 0 (min 255 (pyTrunc (val * 128 + 128)))).toNat

/-- converter.normalize_quaternion_to_bytes.  The source computes
length = sqrt(w*w + x*x + y*y + z*z); here the length is an explicit
argument L (theorems constrain it by L ^ 2 = sum of squares, 0 <= L).
If the length is zero the identity quaternion is substituted, otherwise
each component is divided by the length; each resulting component is
then mapped by to_byte. -/
def normalize_quaternion_to_bytes (w x y z L : ℚ) : ℕ × ℕ × ℕ × ℕ :=
  if L = 0 then
    (to_byte 1, to_byte 0, to_byte 0, to_byte 0)
  else
    (to_byte (w / L), to_byte (x / L), to_byte (y / L), to_byte (z / L))

/-- Clamp an integer into the byte range [0, 255] (spec wording: then
clamp to [0,255]). -/
def clamp_byte (b : ℤ) : ℕ := (max 0 (min 255 b)).toNat

/-- Byte mapping written from the words of the spec, section 4.1:
byte = round(v * 128 + 128) then clamp to [0, 255]. -/
def byte_spec_round (v : ℚ) : ℕ := clamp_byte (round (v * 128 + 128))

/-- Byte mapping of the amended claim: byte = int(v * 128 + 128)
(Python truncation toward zero) then clamp to [0, 255]. -/
def byte_spec_trunc (v : ℚ) : ℕ := clamp_byte (pyTrunc (v * 128 + 128))

/-- Quaternion quantization written from the words of the spec: compute
the Euclidean norm; if zero, substitute the identity quaternion
(1,0,0,0); otherwise normalize to unit length; then map each component
with the round-based byte mapping.  The zero test is expressed on the
sum of squares, which is zero exactly when the norm is. -/
def quantize_spec_round (w x y z L : ℚ) : ℕ × ℕ × ℕ × ℕ :=
  if w ^ 2 + x ^ 2 + y ^ 2 + z ^ 2 = 0 then
    (byte_spec_round 1, byte_spec_round 0, byte_spec_round 0, byte_spec_round 0)
  else
    (byte_spec_round (w / L), byte_spec_round (x / L),
     byte_spec_round (y / L), byte_spec_round (z / L))

/-- Quaternion quantization of the amended claim: as quantize_spec_round
but with truncation toward zero in place of rounding. -/
def quantize_spec_trunc (w x y z L : ℚ) : ℕ × ℕ × ℕ × ℕ :=
  if w ^ 2 + x ^ 2 + y ^ 2 + z ^ 2 = 0 then
    (byte_spec_trunc 1, byte_spec_trunc 0, byte_spec_trunc 0, byte_spec_trunc 0)
  else
    (byte_spec_trunc (w / L), byte_spec_trunc (x / L),
     byte_spec_trunc (y / L), byte_spec_trunc (z / L))

/-- Modelled from the spec: the playback-side dequantization of a
rotation byte, (byte - 128) / 128 (spec section 4.1; the decoder client
is outside src/). -/
def dequantize (b : ℕ) : ℚ := ((b : ℚ) - 128) / 128

/-- One decoded 36-byte record.  Multi-byte float32 fields are carried
as their 32-bit big-endian bit patterns (struct.pack round-trips a
float32 value exactly through its 4-byte pattern). -/
structure Rec36 where
  sf : ℕ
  ef : ℕ
  px : ℕ
  py : ℕ
  pz : ℕ
  cr : ℕ
  cg : ℕ
  cb : ℕ
  op : ℕ
  sx : ℕ
  sy : ℕ
  sz : ℕ
  qw : ℕ
  qx : ℕ
  qy : ℕ
  qz : ℕ
  deriving DecidableEq, Repr

/-- Big-endian packing of an unsigned 16-bit field (format code H). -/
def pack_u16 (n : ℕ) : List ℕ := [n / 256 % 256, n % 256]

/-- Big-endian packing of a 32-bit field (format code f, carried as its
bit pattern). -/
def pack_u32 (n : ℕ) : List ℕ :=
  [n / 16777216 % 256, n / 65536 % 256, n / 256 % 256, n % 256]

/-- Packing of an unsigned 8-bit field (format code B). -/
def pack_u8 (n : ℕ) : List ℕ := [n % 256]

/-- struct.pack(FMT_STR, *rec): the 36-byte big-endian encoding of a
record, fields in the order of WRITE_FORMAT
(start/end frame, xyz, color, opacity, scaling, rotation). -/
def encode (r : Rec36) : List ℕ :=
  pack_u16 r.sf ++ pack_u16 r.ef ++
  pack_u32 r.px ++ pack_u32 r.py ++ pack_u32 r.pz ++
  pack_u8 r.cr ++ pack_u8 r.cg ++ pack_u8 r.cb ++ pack_u8 r.op ++
  pack_u32 r.sx ++ pack_u32 r.sy ++ pack_u32 r.sz ++
  pack_u8 r.qw ++ pack_u8 r.qx ++ pack_u8 r.qy ++ pack_u8 r.qz

/-- Byte i of a buffer (0 when out of range). -/
def byteAt (bs : List ℕ) (i : ℕ) : ℕ := bs.getD i 0

/-- struct.unpack(FMT_STR, data): decoding of a buffer of exactly 36
bytes, big endian, reading the fields back in WRITE_FORMAT order; any
buffer of a different length raises in Python, modelled by none. -/
def decode : List ℕ → Option Rec36
  | b0 :: b1 :: b2 :: b3 :: b4 :: b5 :: b6 :: b7 :: b8 :: b9 :: b10 :: b11 ::
    b12 :: b13 :: b14 :: b15 :: b16 :: b17 :: b18 :: b19 :: b20 :: b21 ::
    b22 :: b23 :: b24 :: b25 :: b26 :: b27 :: b28 :: b29 :: b30 :: b31 ::
    b32 :: b33 :: b34 :: b35 :: [] =>
    some {
      sf := b0 * 256 + b1,
      ef := b2 * 256 + b3,
      px := b4 * 16777216 + b5 * 65536 + b6 * 256 + b7,
      py := b8 * 16777216 + b9 * 65536 + b10 * 256 + b11,
      pz := b12 * 16777216 + b13 * 65536 + b14 * 256 + b15,
      cr := b16,
      cg := b17,
      cb := b18,
      op := b19,
      sx := b20 * 16777216 + b21 * 65536 + b22 * 256 + b23,
      sy := b24 * 16777216 + b25 * 65536 + b26 * 256 + b27,
      sz := b28 * 16777216 + b29 * 65536 + b30 * 256 + b31,
      qw := b32,
      qx := b33,
      qy := b34,
      qz := b35 }
  | _ => none

/-- Field bounds under which a record is well typed for the wire format:
uint16 frames, 32-bit float patterns, uint8 channels. -/
def WellTyped (r : Rec36) : Prop :=
  r.sf < 65536 ∧ r.ef < 65536 ∧
  r.px < 4294967296 ∧ r.py < 4294967296 ∧ r.pz < 4294967296 ∧
  r.cr < 256 ∧ r.cg < 256 ∧ r.cb < 256 ∧ r.op < 256 ∧
  r.sx < 4294967296 ∧ r.sy < 4294967296 ∧ r.sz < 4294967296 ∧
  r.qw < 256 ∧ r.qx < 256 ∧ r.qy < 256 ∧ r.qz < 256

instance (r : Rec36) : Decidable (WellTyped r) := by
  unfold WellTyped; infer_instance

/-- downsample_dat.iter_records, inner while loop: read chunks of cb
bytes until the file is exhausted (cb is already aligned and positive
here).  The loop runs at most one iteration per remaining byte, so the
file length bounds the number of iterations (fuel). -/
def readChunksN : ℕ → List ℕ → ℕ → List (List ℕ)
  | 0, _, _ => []
  | n + 1, file, cbAligned =>
    if file.isEmpty then []
    else file.take cbAligned :: readChunksN n (file.drop cbAligned) cbAligned

/-- downsample_dat.iter_records, per-chunk record slicing: m = len
(chunk) // RECORD_SIZE; yield chunk[i * RECORD_SIZE : (i+1) * RECORD_SIZE]
for i < m. -/
def chunkRecords (chunk : List ℕ) : List (List ℕ) :=
  (List.range (chunk.length / RECORD_SIZE)).map
    (fun i => (chunk.drop (i * RECORD_SIZE)).take RECORD_SIZE)

/-- downsample_dat.iter_records: the chunk size is first truncated down
to a multiple of RECORD_SIZE (chunk_bytes -= chunk_bytes % RECORD_SIZE);
a zero budget makes f.read(0) return the empty string at once, ending
the loop with no records. -/
def iter_records (file : List ℕ) (chunk_bytes : ℕ) : List (List ℕ) :=
  let cbAligned := chunk_bytes - chunk_bytes % RECORD_SIZE
  if cbAligned = 0 then []
  else ((readChunksN file.length file cbAligned).map chunkRecords).flatten

/-- start_frame of a raw record: struct.unpack_from of !HH at offset 0,
first field. -/
def sf_of (rec : List ℕ) : ℕ := byteAt rec 0 * 256 + byteAt rec 1

/-- end_frame of a raw record: struct.unpack_from of !HH at offset 0,
second field. -/
def ef_of (rec : List ℕ) : ℕ := byteAt rec 2 * 256 + byteAt rec 3

/-- Python truthiness of the limit argument combined with the cap test
kept >= limit: None and 0 are falsy, so they never stop the loop. -/
def limit_reached (limit : Option ℤ) (kept : ℕ) : Bool :=
  match limit with
  | none => false
  | some l => decide (l ≠ 0 ∧ (kept : ℤ) ≥ l)

/-- downsample_dat.downsample, main loop over the record stream.  total
counts every record of the input (1-indexed after the increment), kept
counts written records; the returned pair is (written records, final
kept counter).  Mirrors: total += 1; stride skip; span skip;
out.write(rec); kept += 1; break once limit and kept >= limit. -/
def downsampleAux (min_span : ℤ) (stride : ℕ) (limit : Option ℤ) :
    List (List ℕ) → ℕ → ℕ → List (List ℕ) × ℕ
  | [], _, kept => ([], kept)
  | rec :: rest, total, kept =>
    if stride > 1 ∧ (total + 1) % stride ≠ 0 then
      downsampleAux min_span stride limit rest (total + 1) kept
    else if (ef_of rec : ℤ) - (sf_of rec : ℤ) < min_span then
      downsampleAux min_span stride limit rest (total + 1) kept
    else if limit_reached limit (kept + 1) then
      ([rec], kept + 1)
    else
      let p := downsampleAux min_span stride limit rest (total + 1) (kept + 1)
      (rec :: p.1, p.2)

/-- downsample_dat.downsample on an already-segmented record stream:
counters start at zero; the second component is the returned kept
count. -/
def downsample (input : List (List ℕ)) (min_span : ℤ) (stride : ℕ)
    (limit : Option ℤ) : List (List ℕ) × ℕ :=
  downsampleAux min_span stride limit input 0 0

/-- Stride test written from the words of the spec: a record at
1-indexed position pos over the entire input stream is stride-eligible
when stride <= 1 (no stride filtering) or pos mod stride == 0. -/
def stride_pass (stride pos : ℕ) : Bool :=
  decide (stride ≤ 1) || decide (pos % stride = 0)

/-- Span test written from the words of the spec: the record passes when
end_frame - start_frame >= minimum_span. -/
def span_pass (min_span : ℤ) (rec : List ℕ) : Bool :=
  decide (min_span ≤ (ef_of rec : ℤ) - (sf_of rec : ℤ))

/-- Retention policy written from the words of the spec (cap disabled):
pair every record with its 1-indexed position over the entire input
stream, keep exactly those passing both the stride test and the span
test, in input order. -/
def retained_spec (input : List (List ℕ)) (min_span : ℤ) (stride : ℕ) :
    List (List ℕ) :=
  (((List.range' 1 input.length).zip input).filter
    (fun p => stride_pass stride p.1 && span_pass min_span p.2)).map Prod.snd

/-- One input vertex as produced by converter.read_vertices_colors:
float32 position (exact rational value) and uint8 color. -/
structure Vertex where
  vx : ℚ
  vy : ℚ
  vz : ℚ
  red : ℕ
  green : ℕ
  blue : ℕ
  deriving DecidableEq, Repr

/-- One record tuple as yielded by converter.generate_records_for_file
(field level; float fields carried as exact rationals). -/
structure SplatRecord where
  start_frame : ℕ
  end_frame : ℕ
  rx : ℚ
  ry : ℚ
  rz : ℚ
  red : ℕ
  green : ℕ
  blue : ℕ
  opacity : ℕ
  scale_x : ℚ
  scale_y : ℚ
  scale_z : ℚ
  rot_w : ℕ
  rot_x : ℕ
  rot_y : ℕ
  rot_z : ℕ
  deriving DecidableEq, Repr

/-- converter.generate_records_for_file: quantize the rotation once per
file, then yield one tuple per vertex with the frame range of the file,
the position and color of the vertex, the uint8 default opacity
(np.full with dtype uint8 reduces mod 256), and the default scale
broadcast over the three scale channels. -/
def generate_records_for_file (verts : List Vertex)
    (start_frame end_frame default_opacity : ℕ) (default_scale : ℚ)
    (qw qx qy qz L : ℚ) : List SplatRecord :=
  let rot := normalize_quaternion_to_bytes qw qx qy qz L
  verts.map (fun v =>
    { start_frame := start_frame, end_frame := end_frame,
      rx := v.vx, ry := v.vy, rz := v.vz,
      red := v.red, green := v.green, blue := v.blue,
      opacity := default_opacity % 256,
      scale_x := default_scale, scale_y := default_scale,
      scale_z := default_scale,
      rot_w := rot.1, rot_x := rot.2.1, rot_y := rot.2.2.1,
      rot_z := rot.2.2.2 })

/-- converter.main, per-file loop: file at index idx gets
start_frame = end_frame = idx * frame_step; records of all files are
chained in file order. -/
def convert_records_from (idx : ℕ) (files : List (List Vertex))
    (frame_step default_opacity : ℕ) (default_scale : ℚ)
    (qw qx qy qz L : ℚ) : List SplatRecord :=
  match files with
  | [] => []
  | f :: rest =>
    generate_records_for_file f (idx * frame_step) (idx * frame_step)
      default_opacity default_scale qw qx qy qz L ++
    convert_records_from (idx + 1) rest frame_step default_opacity
      default_scale qw qx qy qz L

/-- converter.main: the whole batch starts at file index 0. -/
def convert_records (files : List (List Vertex))
    (frame_step default_opacity : ℕ) (default_scale : ℚ)
    (qw qx qy qz L : ℚ) : List SplatRecord :=
  convert_records_from 0 files frame_step default_opacity default_scale
    qw qx qy qz L

/-- converter.write_dat: writes one 36-byte pack per record and returns
the record count. -/
def write_dat (records : List SplatRecord) : ℕ := records.length

/-- prepare_demo.count_records: raises RuntimeError when the file size
is not a multiple of the record size, otherwise returns
size // RECORD_SIZE. -/
def count_records (size : ℕ) : Except String ℕ :=
  if size % RECORD_SIZE ≠ 0 then
    Except.error "size is not a multiple of record size"
  else
    Except.ok (size / RECORD_SIZE)

/-- converter.validate_dat, observable summary: whether the size
mismatch warning is printed, and the reported total record count
size // RECORD_SIZE (the function then prints the first records and
returns normally in either case). -/
def validate_dat (size : ℕ) : Bool × ℕ :=
  (decide (size % RECORD_SIZE ≠ 0), size / RECORD_SIZE)

lemma to_byte_eq_byte_spec_trunc (v : ℚ) : to_byte v = byte_spec_trunc v := rfl

lemma nqb_identity : normalize_quaternion_to_bytes 1 0 0 0 1 = (255, 128, 128, 128) := by
  norm_num [normalize_quaternion_to_bytes, to_byte, pyTrunc]
  decide

/-- Claim C1, counterexample: the quaternion (3,4,0,0) has Euclidean norm
5; after normalization the w component is 3/5, for which the code computes
int(3/5 * 128 + 128) = 204 while the round-based mapping of the claim
gives round(204.8) = 205, so the claimed mapping does not describe the
code. -/
theorem c1_round_mapping_counterexample :
    (5 : ℚ) ^ 2 = 3 ^ 2 + 4 ^ 2 + 0 ^ 2 + 0 ^ 2 ∧ (0 : ℚ) ≤ 5 ∧
    normalize_quaternion_to_bytes 3 4 0 0 5 ≠ quantize_spec_round 3 4 0 0 5 := by
  have h1 : normalize_quaternion_to_bytes 3 4 0 0 5 = (204, 230, 128, 128) := by
    norm_num [normalize_quaternion_to_bytes, to_byte, pyTrunc]
    decide
  have h2 : quantize_spec_round 3 4 0 0 5 = (205, 230, 128, 128) := by
    norm_num [quantize_spec_round, byte_spec_round, clamp_byte, round_eq]
    decide
  refine ⟨by norm_num, by norm_num, ?_⟩
  rw [h1, h2]
  decide

/-- Claim C1, amended: for every input quaternion (w,x,y,z) with Euclidean
norm L, if the norm is zero the encoder substitutes the identity
quaternion (1,0,0,0), otherwise it normalizes to unit length; each
component v is then mapped to an unsigned byte by byte = int(v * 128 +
128), Python truncation toward zero, clamped to [0,255] (truncation, not
rounding, is the only change forced by the counterexample). -/
theorem c1_quantize_matches_trunc_spec (w x y z L : ℚ)
    (hL : L ^ 2 = w ^ 2 + x ^ 2 + y ^ 2 + z ^ 2) (h0 : 0 ≤ L) :
    normalize_quaternion_to_bytes w x y z L = quantize_spec_trunc w x y z L := by
  have hiff : L = 0 ↔ w ^ 2 + x ^ 2 + y ^ 2 + z ^ 2 = 0 := by
    constructor
    · intro h
      rw [h] at hL
      simpa using hL.symm
    · intro h
      rw [h] at hL
      exact pow_eq_zero_iff two_ne_zero |>.mp hL
  unfold normalize_quaternion_to_bytes quantize_spec_trunc
  by_cases h : L = 0
  · rw [if_pos h, if_pos (hiff.mp h)]
    rfl
  · rw [if_neg h, if_neg (fun hc => h (hiff.mpr hc))]
    rfl

/-- Witness for the amended claim C1 at the quaternion (3,4,0,0) of
norm 5. -/
theorem c1_quantize_matches_trunc_spec_witness :
    (5 : ℚ) ^ 2 = 3 ^ 2 + 4 ^ 2 + 0 ^ 2 + 0 ^ 2 ∧ (0 : ℚ) ≤ 5 ∧
    normalize_quaternion_to_bytes 3 4 0 0 5 = quantize_spec_trunc 3 4 0 0 5 :=
  ⟨by norm_num, by norm_num,
    c1_quantize_matches_trunc_spec 3 4 0 0 5 (by norm_num) (by norm_num)⟩

/-- Claim C7, counterexample: on a 37-byte file (size not a multiple of
36) prepare_demo.count_records raises a RuntimeError instead of
returning floor(37 / 36) = 1, so the summarization path is fatal, not a
warning. -/
theorem c7_count_records_counterexample :
    count_records 37 = Except.error "size is not a multiple of record size" ∧
    count_records 37 ≠ Except.ok (37 / RECORD_SIZE) := by
  constructor
  · simp [count_records, RECORD_SIZE]
  · simp [count_records, RECORD_SIZE]

/-- Claim C7, amended: for every existing binary file whose size is not
an exact multiple of the record size, converter.validate_dat reports the
mismatch as a warning and continues, reporting floor(size / 36) records,
but prepare_demo.count_records raises a RuntimeError instead of
returning a count. -/
theorem c7_validate_warns_count_records_raises (size : ℕ)
    (h : size % RECORD_SIZE ≠ 0) :
    validate_dat size = (true, size / RECORD_SIZE) ∧
    count_records size = Except.error "size is not a multiple of record size" := by
  unfold validate_dat count_records
  simp [h]

/-- Witness for the amended claim C7 at file size 37. -/
theorem c7_validate_warns_count_records_raises_witness :
    37 % RECORD_SIZE ≠ 0 ∧
    validate_dat 37 = (true, 37 / RECORD_SIZE) ∧
    count_records 37 = Except.error "size is not a multiple of record size" :=
  ⟨by decide, c7_validate_warns_count_records_raises 37 (by decide)⟩

/-- Claim C8: converting two single-vertex input files with
frame_step = 10, default opacity 200, default scale 2.0 and identity
rotation (1,0,0,0) produces two records, 72 bytes in total; the first
record has start_frame = 0, end_frame = 0, opacity = 200, scale
(2.0, 2.0, 2.0) and rotation bytes (255,128,128,128), and the second has
start_frame = end_frame = 10. -/
theorem c8_two_single_vertex_files (v1 v2 : Vertex) :
    convert_records [[v1], [v2]] 10 200 2 1 0 0 0 1 =
      [{ start_frame := 0, end_frame := 0,
         rx := v1.vx, ry := v1.vy, rz := v1.vz,
         red := v1.red, green := v1.green, blue := v1.blue,
         opacity := 200, scale_x := 2, scale_y := 2, scale_z := 2,
         rot_w := 255, rot_x := 128, rot_y := 128, rot_z := 128 },
       { start_frame := 10, end_frame := 10,
         rx := v2.vx, ry := v2.vy, rz := v2.vz,
         red := v2.red, green := v2.green, blue := v2.blue,
         opacity := 200, scale_x := 2, scale_y := 2, scale_z := 2,
         rot_w := 255, rot_x := 128, rot_y := 128, rot_z := 128 }] ∧
    write_dat (convert_records [[v1], [v2]] 10 200 2 1 0 0 0 1) *
      RECORD_SIZE = 72 := by
  constructor
  · simp [convert_records, convert_records_from, generate_records_for_file,
      nqb_identity, write_dat, RECORD_SIZE]
  · simp [convert_records, convert_records_from, generate_records_for_file,
      write_dat, RECORD_SIZE]

lemma downsampleAux_kept (min_span : ℤ) (stride : ℕ) (limit : Option ℤ) :
    ∀ (input : List (List ℕ)) (total kept : ℕ),
      (downsampleAux min_span stride limit input total kept).2 =
        kept + (downsampleAux min_span stride limit input total kept).1.length := by
  intro input
  induction input with
  | nil => intro total kept; simp [downsampleAux]
  | cons rec rest ih =>
    intro total kept
    by_cases h1 : stride > 1 ∧ (total + 1) % stride ≠ 0
    · simp [downsampleAux, h1, ih]
    · by_cases h2 : (ef_of rec : ℤ) - (sf_of rec : ℤ) < min_span
      · simp [downsampleAux, h1, h2, ih]
      · by_cases h3 : limit_reached limit (kept + 1)
        · simp [downsampleAux, h1, h2, h3]
        · simp [downsampleAux, h1, h2, h3, ih]
          omega

lemma downsampleAux_nolimit (min_span : ℤ) (stride : ℕ) (limit : Option ℤ)
    (hfree : ∀ k, limit_reached limit k = false) :
    ∀ (input : List (List ℕ)) (total kept : ℕ),
      (downsampleAux min_span stride limit input total kept).1 =
        (((List.range' (total + 1) input.length).zip input).filter
          (fun p => stride_pass stride p.1 && span_pass min_span p.2)).map
          Prod.snd := by
  intro input
  induction input with
  | nil => intro total kept; simp [downsampleAux]
  | cons rec rest ih =>
    intro total kept
    rw [List.length_cons, List.range'_succ, List.zip_cons_cons, List.filter_cons]
    by_cases h1 : stride > 1 ∧ (total + 1) % stride ≠ 0
    · have hsp : stride_pass stride (total + 1) = false := by
        simp only [stride_pass, Bool.or_eq_false_iff, decide_eq_false_iff_not]
        omega
      simp [downsampleAux, h1, hsp, ih]
    · have hsp : stride_pass stride (total + 1) = true := by
        simp only [stride_pass, Bool.or_eq_true, decide_eq_true_eq]
        omega
      by_cases h2 : (ef_of rec : ℤ) - (sf_of rec : ℤ) < min_span
      · have hsn : span_pass min_span rec = false := by
          simp only [span_pass, decide_eq_false_iff_not]
          omega
        simp [downsampleAux, h1, h2, hsp, hsn, ih]
      · have hsn : span_pass min_span rec = true := by
          simp only [span_pass, decide_eq_true_eq]
          omega
        simp [downsampleAux, h1, h2, hsp, hsn, hfree, ih]

/-- Claim C3: with the cap disabled, a record is retained by the
downsample filter exactly when it passes both the stride test (stride
at most 1 means no stride filtering, otherwise its 1-indexed position
over the entire input stream must be divisible by the stride) and the
span test end_frame - start_frame >= min_span; the output lists the
passing records in input order. -/
theorem c3_retained_iff_both_tests (input : List (List ℕ)) (min_span : ℤ)
    (stride : ℕ) :
    (downsample input min_span stride none).1 =
      retained_spec input min_span stride :=
  downsampleAux_nolimit min_span stride none (fun _ => rfl) input 0 0

/-- Claim C9: a limit of None or 0 is falsy in the cap test, so the cap
is disabled entirely: every record passing both tests is written and the
returned count is the number of passing records. -/
theorem c9_limit_none_or_zero_disables_cap (input : List (List ℕ))
    (min_span : ℤ) (stride : ℕ) :
    (downsample input min_span stride none).1 =
      retained_spec input min_span stride ∧
    (downsample input min_span stride (some 0)).1 =
      retained_spec input min_span stride ∧
    (downsample input min_span stride none).2 =
      (retained_spec input min_span stride).length ∧
    (downsample input min_span stride (some 0)).2 =
      (retained_spec input min_span stride).length := by
  have hfree0 : ∀ k, limit_reached (some 0) k = false := by
    intro k
    simp [limit_reached]
  have hn := downsampleAux_nolimit min_span stride none (fun _ => rfl) input 0 0
  have hz := downsampleAux_nolimit min_span stride (some 0) hfree0 input 0 0
  have kn := downsampleAux_kept min_span stride none input 0 0
  have kz := downsampleAux_kept min_span stride (some 0) input 0 0
  refine ⟨hn, hz, ?_, ?_⟩
  · rw [downsample] at *
    rw [kn, hn]
    simp [retained_spec]
  · rw [downsample] at *
    rw [kz, hz]
    simp [retained_spec]

lemma downsampleAux_cap (min_span : ℤ) (stride : ℕ) (l : ℤ) :
    ∀ (input : List (List ℕ)) (total kept : ℕ), (kept : ℤ) < l →
      (downsampleAux min_span stride (some l) input total kept).1 =
        ((downsampleAux min_span stride none input total kept).1).take
          (l.toNat - kept) := by
  intro input
  induction input with
  | nil => intro total kept _; simp [downsampleAux]
  | cons rec rest ih =>
    intro total kept hkl
    by_cases h1 : stride > 1 ∧ (total + 1) % stride ≠ 0
    · simp [downsampleAux, h1, ih _ _ hkl]
    · by_cases h2 : (ef_of rec : ℤ) - (sf_of rec : ℤ) < min_span
      · simp [downsampleAux, h1, h2, ih _ _ hkl]
      · by_cases h3 : (kept + 1 : ℤ) ≥ l
        · have hhit : limit_reached (some l) (kept + 1) = true := by
            simp only [limit_reached, decide_eq_true_eq]
            constructor
            · omega
            · push_cast
              omega
          have hfr : limit_reached none (kept + 1) = false := rfl
          have htake : l.toNat - kept = 1 := by omega
          simp [downsampleAux, h1, h2, hhit, hfr, htake]
        · have hmiss : limit_reached (some l) (kept + 1) = false := by
            simp only [limit_reached, decide_eq_false_iff_not]
            push_cast
            omega
          have hfr : limit_reached none (kept + 1) = false := rfl
          have hkl2 : ((kept + 1 : ℕ) : ℤ) < l := by push_cast; omega
          have htake : l.toNat - kept = (l.toNat - (kept + 1)) + 1 := by omega
          rw [htake]
          simp [downsampleAux, h1, h2, hmiss, hfr, ih _ _ hkl2,
            List.take_succ_cons]

/-- Claim C5: for every input record stream and positive cap, processing
halts once the number of retained records reaches the cap: the output is
exactly the limit-length prefix of the uncapped output (so no record
after the limit-th retained record is written), and whenever at least
limit records pass the filters, exactly limit records are written. -/
theorem c5_cap_halts_at_limit (input : List (List ℕ)) (min_span : ℤ)
    (stride : ℕ) (l : ℤ) (hl : 0 < l) :
    (downsample input min_span stride (some l)).1 =
      ((downsample input min_span stride none).1).take l.toNat ∧
    (l.toNat ≤ (downsample input min_span stride none).2 →
      (downsample input min_span stride (some l)).2 = l.toNat) := by
  have hcap := downsampleAux_cap min_span stride l input 0 0 (by push_cast; omega)
  have kl := downsampleAux_kept min_span stride (some l) input 0 0
  have kn := downsampleAux_kept min_span stride none input 0 0
  constructor
  · simpa [downsample] using hcap
  · intro hle
    simp only [downsample] at hle ⊢
    rw [kl, hcap]
    rw [kn] at hle
    simp only [List.length_take, Nat.zero_add] at *
    omega

/-- Witness for claim C5: three passing records, cap 2. -/
theorem c5_cap_halts_at_limit_witness :
    (0 : ℤ) < 2 ∧
    (downsample [[0,0,0,9],[0,0,0,9],[0,0,0,9]] 5 1 (some 2)).1 =
      ((downsample [[0,0,0,9],[0,0,0,9],[0,0,0,9]] 5 1 none).1).take
        (2 : ℤ).toNat ∧
    ((2 : ℤ).toNat ≤ (downsample [[0,0,0,9],[0,0,0,9],[0,0,0,9]] 5 1 none).2 →
      (downsample [[0,0,0,9],[0,0,0,9],[0,0,0,9]] 5 1 (some 2)).2 =
        (2 : ℤ).toNat) :=
  ⟨by decide,
    c5_cap_halts_at_limit [[0,0,0,9],[0,0,0,9],[0,0,0,9]] 5 1 2 (by decide)⟩

lemma downsampleAux_sublist (min_span : ℤ) (stride : ℕ) (limit : Option ℤ) :
    ∀ (input : List (List ℕ)) (total kept : ℕ),
      List.Sublist (downsampleAux min_span stride limit input total kept).1
        input := by
  intro input
  induction input with
  | nil => intro total kept; simp [downsampleAux]
  | cons rec rest ih =>
    intro total kept
    simp only [downsampleAux]
    by_cases h1 : stride > 1 ∧ (total + 1) % stride ≠ 0
    · rw [if_pos h1]
      exact (ih _ _).cons rec
    · rw [if_neg h1]
      by_cases h2 : (ef_of rec : ℤ) - (sf_of rec : ℤ) < min_span
      · rw [if_pos h2]
        exact (ih _ _).cons rec
      · rw [if_neg h2]
        by_cases h3 : limit_reached limit (kept + 1) = true
        · rw [if_pos h3]
          exact (List.nil_sublist rest).cons₂ rec
        · rw [if_neg h3]
          exact (ih _ _).cons₂ rec

/-- Claim C6: the output of the downsample filter is an order-preserving
subsequence of its input, its length never exceeds the input length, and
with a positive cap l it never exceeds min l (length of input). -/
theorem c6_output_subsequence_and_bounded (input : List (List ℕ))
    (min_span : ℤ) (stride : ℕ) (limit : Option ℤ) :
    List.Sublist (downsample input min_span stride limit).1 input ∧
    (downsample input min_span stride limit).1.length ≤ input.length ∧
    (∀ l : ℤ, limit = some l → 0 < l →
      (downsample input min_span stride limit).1.length ≤
        min l.toNat input.length) := by
  have hsub := downsampleAux_sublist min_span stride limit input 0 0
  refine ⟨hsub, hsub.length_le, ?_⟩
  intro l hlim hl
  subst hlim
  have hcap := downsampleAux_cap min_span stride l input 0 0 (by push_cast; omega)
  rw [downsample]
  rw [hcap]
  simp only [List.length_take, Nat.sub_zero]
  have hn := (downsampleAux_sublist min_span stride none input 0 0).length_le
  omega

/-- Witness for claim C6: two passing records, cap 1. -/
theorem c6_output_subsequence_and_bounded_witness :
    List.Sublist (downsample [[0,0,0,9],[0,0,0,9]] 5 1 (some 1)).1
      [[0,0,0,9],[0,0,0,9]] ∧
    (downsample [[0,0,0,9],[0,0,0,9]] 5 1 (some 1)).1.length ≤
      min (1 : ℤ).toNat 2 :=
  ⟨(c6_output_subsequence_and_bounded [[0,0,0,9],[0,0,0,9]] 5 1 (some 1)).1,
    (c6_output_subsequence_and_bounded [[0,0,0,9],[0,0,0,9]] 5 1
      (some 1)).2.2 1 rfl (by decide)⟩

lemma chunkRecords_take (file : List ℕ) (cb : ℕ) :
    chunkRecords (file.take cb) =
      (List.range (min cb file.length / RECORD_SIZE)).map
        (fun i => (file.drop (i * RECORD_SIZE)).take RECORD_SIZE) := by
  unfold chunkRecords
  rw [List.length_take]
  apply List.map_congr_left
  intro i hi
  rw [List.mem_range] at hi
  rw [List.drop_take, List.take_take]
  congr 1
  have hR : RECORD_SIZE = 36 := rfl
  rw [hR] at hi ⊢
  omega

lemma readChunksN_flatten (cb : ℕ) (hdvd : RECORD_SIZE ∣ cb) (hpos : 0 < cb) :
    ∀ (fuel : ℕ) (file : List ℕ), file.length ≤ fuel →
      ((readChunksN fuel file cb).map chunkRecords).flatten =
        (List.range (file.length / RECORD_SIZE)).map
          (fun i => (file.drop (i * RECORD_SIZE)).take RECORD_SIZE) := by
  intro fuel
  induction fuel with
  | zero =>
    intro file hf
    have hfe : file = [] := List.eq_nil_of_length_eq_zero (by omega)
    subst hfe
    simp [readChunksN]
  | succ n ih =>
    intro file hf
    by_cases hempty : file.isEmpty = true
    · rw [List.isEmpty_iff] at hempty
      subst hempty
      simp [readChunksN]
    · have hne : file ≠ [] := by
        intro hc
        subst hc
        simp at hempty
      have hlenpos : 0 < file.length := List.length_pos.mpr hne
      simp only [readChunksN]
      rw [if_neg hempty]
      simp only [List.map_cons, List.flatten_cons]
      have hlen : (file.drop cb).length ≤ n := by
        simp only [List.length_drop]
        omega
      rw [ih (file.drop cb) hlen]
      rw [chunkRecords_take]
      obtain ⟨q, hq⟩ := hdvd
      have hR : RECORD_SIZE = 36 := rfl
      have hcbq : cb / RECORD_SIZE = q := by
        rw [hq, hR]
        omega
      by_cases hcl : file.length ≤ cb
      · have hd : file.drop cb = [] := List.drop_eq_nil_of_le hcl
        rw [hd]
        have hmin : min cb file.length = file.length := min_eq_right hcl
        rw [hmin]
        simp
      · push_neg at hcl
        have hmin : min cb file.length = cb := min_eq_left (le_of_lt hcl)
        rw [hmin, hcbq]
        have hshift : (List.range ((file.drop cb).length / RECORD_SIZE)).map
            (fun i => ((file.drop cb).drop (i * RECORD_SIZE)).take RECORD_SIZE)
            = (List.range ((file.length - cb) / RECORD_SIZE)).map
              (fun i => (file.drop ((q + i) * RECORD_SIZE)).take RECORD_SIZE) := by
          rw [List.length_drop]
          apply List.map_congr_left
          intro i _
          rw [List.drop_drop]
          congr 2
          rw [hq]
          ring
        rw [hshift]
        have hsplit : file.length / RECORD_SIZE = q + (file.length - cb) / RECORD_SIZE := by
          rw [hq, hR] at *
          omega
        rw [hsplit, List.range_add, List.map_append, List.map_map]
        congr 1

lemma iter_records_eq (file : List ℕ) (chunk_bytes : ℕ)
    (h : RECORD_SIZE ≤ chunk_bytes) :
    iter_records file chunk_bytes =
      (List.range (file.length / RECORD_SIZE)).map
        (fun i => (file.drop (i * RECORD_SIZE)).take RECORD_SIZE) := by
  unfold iter_records
  have hR : RECORD_SIZE = 36 := rfl
  have hdvd : RECORD_SIZE ∣ (chunk_bytes - chunk_bytes % RECORD_SIZE) := by
    refine ⟨chunk_bytes / RECORD_SIZE, ?_⟩
    rw [hR]
    omega
  have hpos : 0 < chunk_bytes - chunk_bytes % RECORD_SIZE := by
    rw [hR] at h ⊢
    omega
  rw [if_neg (by omega)]
  exact readChunksN_flatten _ hdvd hpos file.length file le_rfl

/-- Claim C4: for every input file and chunk budget, every buffer
yielded by the record reader is exactly RECORD_SIZE contiguous bytes of
the input at an offset that is a multiple of RECORD_SIZE and lies fully
inside the file (the chunk budget is truncated down to a multiple of
RECORD_SIZE before any read, so no record is split across two reads). -/
theorem c4_reader_alignment (file : List ℕ) (chunk_bytes : ℕ)
    (buf : List ℕ) (hmem : buf ∈ iter_records file chunk_bytes) :
    ∃ k, buf = (file.drop (k * RECORD_SIZE)).take RECORD_SIZE ∧
      buf.length = RECORD_SIZE ∧ (k + 1) * RECORD_SIZE ≤ file.length := by
  have hR : RECORD_SIZE = 36 := rfl
  by_cases h : RECORD_SIZE ≤ chunk_bytes
  · rw [iter_records_eq file chunk_bytes h] at hmem
    rw [List.mem_map] at hmem
    obtain ⟨i, hi, hbuf⟩ := hmem
    rw [List.mem_range] at hi
    refine ⟨i, hbuf.symm, ?_, ?_⟩
    · rw [← hbuf, List.length_take, List.length_drop]
      rw [hR] at hi ⊢
      omega
    · rw [hR] at hi ⊢
      omega
  · exfalso
    have hz : chunk_bytes - chunk_bytes % RECORD_SIZE = 0 := by
      rw [hR] at h ⊢
      omega
    simp [iter_records, hz] at hmem

/-- Witness for claim C4: a 40-byte file read with a 36-byte budget
yields the single aligned record consisting of the first 36 bytes. -/
theorem c4_reader_alignment_witness :
    ∃ k, List.range 36 = ((List.range 40).drop (k * RECORD_SIZE)).take
      RECORD_SIZE ∧ (List.range 36).length = RECORD_SIZE ∧
      (k + 1) * RECORD_SIZE ≤ (List.range 40).length :=
  c4_reader_alignment (List.range 40) 36 (List.range 36) (by decide)

/-- Claim C10: for every input file whose byte size is not an exact
multiple of RECORD_SIZE, the record reader raises no error: it yields
exactly floor(size / RECORD_SIZE) records (the aligned slices of the
input), silently ignoring the trailing size mod RECORD_SIZE bytes. -/
theorem c10_trailing_bytes_ignored (file : List ℕ) (chunk_bytes : ℕ)
    (h : RECORD_SIZE ≤ chunk_bytes) (hmis : file.length % RECORD_SIZE ≠ 0) :
    (iter_records file chunk_bytes).length = file.length / RECORD_SIZE ∧
    iter_records file chunk_bytes =
      (List.range (file.length / RECORD_SIZE)).map
        (fun i => (file.drop (i * RECORD_SIZE)).take RECORD_SIZE) := by
  have he := iter_records_eq file chunk_bytes h
  refine ⟨?_, he⟩
  rw [he]
  simp

/-- Witness for claim C10: a 37-byte file yields exactly one record. -/
theorem c10_trailing_bytes_ignored_witness :
    RECORD_SIZE ≤ 36 ∧ (List.range 37).length % RECORD_SIZE ≠ 0 ∧
    (iter_records (List.range 37) 36).length =
      (List.range 37).length / RECORD_SIZE :=
  ⟨by decide, by decide,
    (c10_trailing_bytes_ignored (List.range 37) 36 (by decide) (by decide)).1⟩

lemma decode_encode (r : Rec36) (h : WellTyped r) : decode (encode r) = some r := by
  cases r with
  | mk sf ef px py pz cr cg cb op sx sy sz qw qx qy qz =>
    unfold WellTyped at h
    obtain ⟨h1, h2, h3, h4, h5, h6, h7, h8, h9, h10, h11, h12, h13, h14, h15,
      h16⟩ := h
    dsimp only at h1 h2 h3 h4 h5 h6 h7 h8 h9 h10 h11 h12 h13 h14 h15 h16
    simp only [encode, pack_u16, pack_u32, pack_u8, List.cons_append,
      List.nil_append, decode, Option.some.injEq, Rec36.mk.injEq]
    omega

lemma nqb_three_four :
    normalize_quaternion_to_bytes 3 4 0 0 5 = (204, 230, 128, 128) := by
  norm_num [normalize_quaternion_to_bytes, to_byte, pyTrunc]
  decide

lemma dequantize_to_byte_bound (u : ℚ) (hlo : -1 ≤ u) (hhi : u ≤ 1) :
    |dequantize (to_byte u) - u| ≤ 1 / 128 := by
  have ht0 : (0 : ℚ) ≤ u * 128 + 128 := by linarith
  have htr : pyTrunc (u * 128 + 128) = ⌊u * 128 + 128⌋ := if_pos ht0
  have hf0 : 0 ≤ ⌊u * 128 + 128⌋ := Int.floor_nonneg.mpr ht0
  have hfle : (⌊u * 128 + 128⌋ : ℚ) ≤ u * 128 + 128 := Int.floor_le _
  have hflt : u * 128 + 128 < ⌊u * 128 + 128⌋ + 1 := Int.lt_floor_add_one _
  unfold to_byte dequantize
  rw [htr]
  by_cases hc : ⌊u * 128 + 128⌋ ≤ 255
  · have hmm : max 0 (min 255 ⌊u * 128 + 128⌋) = ⌊u * 128 + 128⌋ := by omega
    rw [hmm]
    have hcast : ((⌊u * 128 + 128⌋.toNat : ℕ) : ℚ) =
        ((⌊u * 128 + 128⌋ : ℤ) : ℚ) := by
      exact_mod_cast congrArg Int.cast (Int.toNat_of_nonneg hf0)
    rw [hcast, abs_le]
    push_cast at hflt hfle ⊢
    constructor
    · linarith
    · linarith
  · push_neg at hc
    have h256 : (256 : ℚ) ≤ u * 128 + 128 := by
      have hle : (256 : ℤ) ≤ ⌊u * 128 + 128⌋ := by omega
      have : ((256 : ℤ) : ℚ) ≤ ((⌊u * 128 + 128⌋ : ℤ) : ℚ) := by
        exact_mod_cast hle
      push_cast at this
      linarith [hfle]
    have hu1 : u = 1 := le_antisymm hhi (by linarith)
    subst hu1
    have hfv : ⌊(1 : ℚ) * 128 + 128⌋ = 256 := by norm_num
    rw [hfv]
    norm_num
    rw [abs_le]
    rw [show Int.toNat 255 = 255 from rfl]
    norm_num

lemma div_norm_in_range (w L : ℚ) (hw : w ^ 2 ≤ L ^ 2) (hL : 0 < L) :
    -1 ≤ w / L ∧ w / L ≤ 1 := by
  have habs : -L ≤ w ∧ w ≤ L := by
    constructor <;> nlinarith [sq_nonneg (w + L), sq_nonneg (w - L)]
  constructor
  · rw [le_div_iff hL]
    linarith [habs.1]
  · rw [div_le_one hL]
    exact habs.2

/-- Claim C2: for every well-typed field tuple, decoding the 36-byte
big-endian encoding reproduces every field exactly (frames, position
patterns, color, opacity, scale patterns, rotation bytes), and whenever
the rotation bytes come from quantizing a quaternion of norm L > 0, the
spec-modelled dequantization (byte - 128) / 128 reproduces each
normalized rotation component within quantization error at most 1/128
per channel. -/
theorem c2_roundtrip_and_rotation_bound (r : Rec36) (hwt : WellTyped r)
    (w x y z L : ℚ) (hL : L ^ 2 = w ^ 2 + x ^ 2 + y ^ 2 + z ^ 2)
    (hpos : 0 < L)
    (hrot : (r.qw, r.qx, r.qy, r.qz) =
      normalize_quaternion_to_bytes w x y z L) :
    decode (encode r) = some r ∧
    |dequantize r.qw - w / L| ≤ 1 / 128 ∧
    |dequantize r.qx - x / L| ≤ 1 / 128 ∧
    |dequantize r.qy - y / L| ≤ 1 / 128 ∧
    |dequantize r.qz - z / L| ≤ 1 / 128 := by
  have hne : L ≠ 0 := ne_of_gt hpos
  rw [normalize_quaternion_to_bytes, if_neg hne, Prod.mk.injEq,
    Prod.mk.injEq, Prod.mk.injEq] at hrot
  obtain ⟨hbw, hbx, hby, hbz⟩ := hrot
  have hrw := div_norm_in_range w L (by nlinarith [sq_nonneg x, sq_nonneg y, sq_nonneg z]) hpos
  have hrx := div_norm_in_range x L (by nlinarith [sq_nonneg w, sq_nonneg y, sq_nonneg z]) hpos
  have hry := div_norm_in_range y L (by nlinarith [sq_nonneg w, sq_nonneg x, sq_nonneg z]) hpos
  have hrz := div_norm_in_range z L (by nlinarith [sq_nonneg w, sq_nonneg x, sq_nonneg y]) hpos
  refine ⟨decode_encode r hwt, ?_, ?_, ?_, ?_⟩
  · rw [hbw]
    exact dequantize_to_byte_bound _ hrw.1 hrw.2
  · rw [hbx]
    exact dequantize_to_byte_bound _ hrx.1 hrx.2
  · rw [hby]
    exact dequantize_to_byte_bound _ hry.1 hry.2
  · rw [hbz]
    exact dequantize_to_byte_bound _ hrz.1 hrz.2

/-- Concrete record used as the round-trip witness: arbitrary in-range
fields, rotation bytes equal to the quantization of (3,4,0,0). -/
def sampleRecord : Rec36 :=
  { sf := 1, ef := 2, px := 3, py := 4, pz := 4294967295, cr := 6, cg := 7,
    cb := 8, op := 9, sx := 10, sy := 11, sz := 12,
    qw := 204, qx := 230, qy := 128, qz := 128 }

/-- Witness for claim C2 at sampleRecord and the quaternion (3,4,0,0) of
norm 5. -/
theorem c2_roundtrip_and_rotation_bound_witness :
    WellTyped sampleRecord ∧
    (5 : ℚ) ^ 2 = 3 ^ 2 + 4 ^ 2 + 0 ^ 2 + 0 ^ 2 ∧ (0 : ℚ) < 5 ∧
    (sampleRecord.qw, sampleRecord.qx, sampleRecord.qy, sampleRecord.qz) =
      normalize_quaternion_to_bytes 3 4 0 0 5 ∧
    (decode (encode sampleRecord) = some sampleRecord ∧
     |dequantize sampleRecord.qw - 3 / 5| ≤ 1 / 128 ∧
     |dequantize sampleRecord.qx - 4 / 5| ≤ 1 / 128 ∧
     |dequantize sampleRecord.qy - 0 / 5| ≤ 1 / 128 ∧
     |dequantize sampleRecord.qz - 0 / 5| ≤ 1 / 128) :=
  ⟨by decide, by norm_num, by norm_num, by rw [nqb_three_four]; rfl,
    c2_roundtrip_and_rotation_bound sampleRecord (by decide) 3 4 0 0 5
      (by norm_num) (by norm_num) (by rw [nqb_three_four]; rfl)⟩
